import Mathlib

/-!
Verification of the BMS BLE protocol layer (message framer, checksum,
record codec, session) against its natural-language specification.

Bytes are modelled as `Nat` (values < 256 where it matters), byte buffers as
`List Nat`, fallible operations as `Except`.  The fixed-point scaled values
that the Rust code computes in `f32` are modelled with exact rationals.
-/

namespace Ubmsc

/-! ## Wire constants (src/protocol.rs) -/

/-- `HEARTBEAT = *b"AT\r\n"` -/
def HEARTBEAT : List Nat := [0x41, 0x54, 0x0d, 0x0a]

/-- `REQUEST_HEADER = [0xaa, 0x55, 0x90, 0xeb]` -/
def REQUEST_HEADER : List Nat := [0xaa, 0x55, 0x90, 0xeb]

/-- `RESPONSE_HEADER = [0x55, 0xaa, 0xeb, 0x90]` -/
def RESPONSE_HEADER : List Nat := [0x55, 0xaa, 0xeb, 0x90]

/-! ## Message framer (`MessageIter`, src/protocol.rs) -/

/-- The disjunction tested by `MessageIter::next`:
`rest.starts_with(&HEARTBEAT) || rest.starts_with(&REQUEST_HEADER) ||
 rest.starts_with(&RESPONSE_HEADER)`. -/
def startsWithHeader (b : List Nat) : Bool :=
  HEARTBEAT.isPrefixOf b || REQUEST_HEADER.isPrefixOf b || RESPONSE_HEADER.isPrefixOf b

/-- The scan `for i in 1..l { if header at i { return i } }`, with explicit
iteration count `fuel` (structural recursion so the kernel can evaluate it). -/
def findSplitAux (b : List Nat) : Nat → Nat → Option Nat
  | _, 0 => none
  | i, fuel + 1 =>
    if startsWithHeader (b.drop i) then some i else findSplitAux b (i + 1) fuel

/-- Position of the first header occurrence in `b` at offset `1 ≤ i ≤ l-1`,
exactly the loop of `MessageIter::next`. -/
def findSplit (b : List Nat) : Option Nat :=
  findSplitAux b 1 (b.length - 1)

/-- One run of the iterator, driven by `fuel` (each step consumes at least
one byte, so `fuel = b.length` is always enough). -/
def messagesF : Nat → List Nat → List (List Nat)
  | _, [] => []
  | 0, x :: xs => [x :: xs]
  | fuel + 1, x :: xs =>
    match findSplit (x :: xs) with
    | some i => (x :: xs).take i :: messagesF fuel ((x :: xs).drop i)
    | none => [x :: xs]

/-- The full (finite) message sequence produced by `MessageIter` over `b`. -/
def messages (b : List Nat) : List (List Nat) :=
  messagesF b.length b

/-! ### Framer lemmas -/

theorem findSplitAux_some {b : List Nat} {i fuel k : Nat}
    (h : findSplitAux b i fuel = some k) :
    i ≤ k ∧ k < i + fuel ∧ startsWithHeader (b.drop k) = true ∧
      ∀ j, i ≤ j → j < k → startsWithHeader (b.drop j) = false := by
  induction fuel generalizing i with
  | zero => simp [findSplitAux] at h
  | succ fuel ih =>
    rw [findSplitAux] at h
    by_cases hs : startsWithHeader (b.drop i) = true
    · simp [hs] at h
      subst h
      exact ⟨le_refl _, by omega, hs, fun j h1 h2 => by omega⟩
    · simp [hs] at h
      obtain ⟨h1, h2, h3, h4⟩ := ih h
      refine ⟨by omega, by omega, h3, fun j hj1 hj2 => ?_⟩
      rcases Nat.eq_or_lt_of_le hj1 with he | hl
      · subst he; simpa using hs
      · exact h4 j hl hj2

theorem findSplitAux_none {b : List Nat} {i fuel : Nat}
    (h : findSplitAux b i fuel = none) :
    ∀ j, i ≤ j → j < i + fuel → startsWithHeader (b.drop j) = false := by
  induction fuel generalizing i with
  | zero => intro j h1 h2; omega
  | succ fuel ih =>
    rw [findSplitAux] at h
    by_cases hs : startsWithHeader (b.drop i) = true
    · simp [hs] at h
    · simp [hs] at h
      intro j h1 h2
      rcases Nat.eq_or_lt_of_le h1 with he | hl
      · subst he; simpa using hs
      · exact ih h j hl (by omega)

theorem findSplit_some {b : List Nat} {k : Nat} (h : findSplit b = some k) :
    1 ≤ k ∧ k < b.length ∧ startsWithHeader (b.drop k) = true ∧
      ∀ j, 1 ≤ j → j < k → startsWithHeader (b.drop j) = false := by
  obtain ⟨h1, h2, h3, h4⟩ := findSplitAux_some h
  exact ⟨h1, by omega, h3, h4⟩

theorem findSplit_none {b : List Nat} (h : findSplit b = none) :
    ∀ j, 1 ≤ j → j < b.length → startsWithHeader (b.drop j) = false := by
  intro j h1 h2
  exact findSplitAux_none h j h1 (by omega)

/-- Concatenating the messages recovers the input, for any fuel. -/
theorem messagesF_flatten (fuel : Nat) : ∀ b : List Nat, (messagesF fuel b).flatten = b := by
  induction fuel with
  | zero =>
    intro b
    cases b with
    | nil => simp [messagesF]
    | cons x xs => simp [messagesF]
  | succ fuel ih =>
    intro b
    cases b with
    | nil => simp [messagesF]
    | cons x xs =>
      rw [messagesF]
      cases hf : findSplit (x :: xs) with
      | some i => simp [ih, List.take_append_drop]
      | none => simp

/-- Every yielded message is non-empty, for any fuel. -/
theorem messagesF_ne_nil (fuel : Nat) :
    ∀ b m : List Nat, m ∈ messagesF fuel b → m ≠ [] := by
  induction fuel with
  | zero =>
    intro b m hm
    cases b with
    | nil => simp [messagesF] at hm
    | cons x xs => simp [messagesF] at hm; simp [hm]
  | succ fuel ih =>
    intro b m hm
    cases b with
    | nil => simp [messagesF] at hm
    | cons x xs =>
      rw [messagesF] at hm
      cases hf : findSplit (x :: xs) with
      | some i =>
        rw [hf] at hm
        obtain ⟨h1, _, _, _⟩ := findSplit_some hf
        rcases List.mem_cons.mp hm with he | hr
        · subst he
          simp [List.take_eq_nil_iff]
          omega
        · exact ih _ m hr
      | none =>
        rw [hf] at hm
        simp at hm
        simp [hm]

/-- C1: the framer yields a finite sequence of sub-slices whose concatenation
is the input, every yielded message is non-empty, and the empty buffer
yields no messages. -/
theorem framer_complete :
    (∀ b : List Nat, (messages b).flatten = b) ∧
    (∀ b m : List Nat, m ∈ messages b → m ≠ []) ∧
    messages [] = [] :=
  ⟨fun b => messagesF_flatten b.length b,
   fun b m hm => messagesF_ne_nil b.length b m hm,
   rfl⟩

theorem framer_complete_witness :
    (messages [1, 2, 3]).flatten = [1, 2, 3] ∧ ([1, 2, 3] : List Nat) ≠ [] :=
  ⟨framer_complete.1 [1, 2, 3],
   framer_complete.2.1 [1, 2, 3] [1, 2, 3] (by decide)⟩

/-! ### Prefix facts for the framer invariants -/

theorem isPrefixOf_iff_exists :
    ∀ (l b : List Nat), l.isPrefixOf b = true ↔ ∃ t, b = l ++ t := by
  intro l
  induction l with
  | nil => intro b; simp [List.isPrefixOf]
  | cons a as ih =>
    intro b
    cases b with
    | nil => simp [List.isPrefixOf]
    | cons x xs =>
      rw [show (a :: as).isPrefixOf (x :: xs) = ((a == x) && as.isPrefixOf xs) from rfl]
      rw [Bool.and_eq_true, beq_iff_eq, ih xs]
      constructor
      · rintro ⟨rfl, t, rfl⟩; exact ⟨t, rfl⟩
      · rintro ⟨t, ht⟩
        injection ht with h1 h2
        exact ⟨h1.symm, t, h2⟩

theorem isPrefixOf_append (l t : List Nat) : l.isPrefixOf (l ++ t) = true :=
  (isPrefixOf_iff_exists l (l ++ t)).mpr ⟨t, rfl⟩

theorem isPrefixOf_take {l b : List Nat} {n : Nat} (hn : l.length ≤ n)
    (h : l.isPrefixOf b = true) : l.isPrefixOf (b.take n) = true := by
  obtain ⟨t, rfl⟩ := (isPrefixOf_iff_exists l b).mp h
  rw [List.take_append_eq_append_take, List.take_of_length_le (by omega)]
  exact (isPrefixOf_iff_exists _ _).mpr ⟨_, rfl⟩

theorem isPrefixOf_of_take {l b : List Nat} {n : Nat}
    (h : l.isPrefixOf (b.take n) = true) : l.isPrefixOf b = true := by
  obtain ⟨t, ht⟩ := (isPrefixOf_iff_exists l (b.take n)).mp h
  refine (isPrefixOf_iff_exists l b).mpr ⟨t ++ b.drop n, ?_⟩
  rw [← List.append_assoc, ← ht, List.take_append_drop]

theorem startsWithHeader_of_take {b : List Nat} {n : Nat}
    (h : startsWithHeader (b.take n) = true) : startsWithHeader b = true := by
  unfold startsWithHeader at h ⊢
  rcases Bool.or_eq_true_iff.mp h with h' | h'
  · rcases Bool.or_eq_true_iff.mp h' with h'' | h''
    · simp [isPrefixOf_of_take h'']
    · simp [isPrefixOf_of_take h'']
  · simp [isPrefixOf_of_take h']

/-- No 4-byte header constant can start at offsets 1..3 of a buffer that
itself starts with a header constant (checked over all nine pairs). -/
theorem header_no_overlap {b : List Nat} (hb : startsWithHeader b = true)
    {j : Nat} (h1 : 1 ≤ j) (h3 : j ≤ 3) : startsWithHeader (b.drop j) = false := by
  unfold startsWithHeader at hb
  have hcases : HEARTBEAT.isPrefixOf b = true ∨ REQUEST_HEADER.isPrefixOf b = true ∨
      RESPONSE_HEADER.isPrefixOf b = true := by
    rcases Bool.or_eq_true_iff.mp hb with h' | h'
    · rcases Bool.or_eq_true_iff.mp h' with h'' | h''
      · exact Or.inl h''
      · exact Or.inr (Or.inl h'')
    · exact Or.inr (Or.inr h')
  interval_cases j <;>
    rcases hcases with hh | hh | hh <;>
    obtain ⟨t, rfl⟩ := (isPrefixOf_iff_exists _ b).mp hh <;>
    simp [HEARTBEAT, REQUEST_HEADER, RESPONSE_HEADER, startsWithHeader,
      List.isPrefixOf]

/-- The first split offset of a buffer that starts with a header is at
least 4 (the header length). -/
theorem findSplit_ge_four {b : List Nat} {i : Nat}
    (hb : startsWithHeader b = true) (h : findSplit b = some i) : 4 ≤ i := by
  obtain ⟨h1, _, h3, _⟩ := findSplit_some h
  by_contra hlt
  have := header_no_overlap hb h1 (by omega : i ≤ 3)
  rw [h3] at this
  exact Bool.true_eq_false.mp this

/-- If the buffer starts with a header then so does every message the
framer yields from it. -/
theorem messagesF_all_start (fuel : Nat) :
    ∀ b m : List Nat, startsWithHeader b = true → m ∈ messagesF fuel b →
      startsWithHeader m = true := by
  induction fuel with
  | zero =>
    intro b m hb hm
    cases b with
    | nil => simp [messagesF] at hm
    | cons x xs => simp [messagesF] at hm; rwa [hm]
  | succ fuel ih =>
    intro b m hb hm
    cases b with
    | nil => simp [messagesF] at hm
    | cons x xs =>
      rw [messagesF] at hm
      cases hf : findSplit (x :: xs) with
      | some i =>
        rw [hf] at hm
        rcases List.mem_cons.mp hm with he | hr
        · subst he
          have h4 : 4 ≤ i := findSplit_ge_four hb hf
          unfold startsWithHeader at hb ⊢
          rcases Bool.or_eq_true_iff.mp hb with h' | h'
          · rcases Bool.or_eq_true_iff.mp h' with h'' | h''
            · have hp := isPrefixOf_take (l := HEARTBEAT) (b := x :: xs) (n := i)
                (by simp only [HEARTBEAT, List.length_cons, List.length_nil]; omega) h''
              simp only [hp, Bool.true_or, Bool.or_true]
            · have hp := isPrefixOf_take (l := REQUEST_HEADER) (b := x :: xs) (n := i)
                (by simp only [REQUEST_HEADER, List.length_cons, List.length_nil]; omega) h''
              simp only [hp, Bool.true_or, Bool.or_true]
          · have hp := isPrefixOf_take (l := RESPONSE_HEADER) (b := x :: xs) (n := i)
              (by simp only [RESPONSE_HEADER, List.length_cons, List.length_nil]; omega) h'
            simp only [hp, Bool.true_or, Bool.or_true]
        · exact ih _ m (findSplit_some hf).2.2.1 hr
      | none =>
        rw [hf] at hm
        simp at hm
        rwa [hm]

/-- All messages after the first start with a header. -/
theorem messagesF_tail_start (fuel : Nat) :
    ∀ b m : List Nat, m ∈ (messagesF fuel b).drop 1 → startsWithHeader m = true := by
  induction fuel with
  | zero =>
    intro b m hm
    cases b with
    | nil => simp [messagesF] at hm
    | cons x xs => simp [messagesF] at hm
  | succ fuel ih =>
    intro b m hm
    cases b with
    | nil => simp [messagesF] at hm
    | cons x xs =>
      rw [messagesF] at hm
      cases hf : findSplit (x :: xs) with
      | some i =>
        rw [hf] at hm
        simp only [List.drop_one, List.tail_cons] at hm
        exact messagesF_all_start fuel _ m (findSplit_some hf).2.2.1 hm
      | none =>
        rw [hf] at hm
        simp at hm

/-- No yielded message contains a header constant wholly inside it at an
offset `≥ 1` (needs enough fuel, which `messages` supplies). -/
theorem messagesF_no_interior (fuel : Nat) :
    ∀ b m : List Nat, b.length ≤ fuel → m ∈ messagesF fuel b →
      ∀ j, 1 ≤ j → j + 4 ≤ m.length → startsWithHeader (m.drop j) = false := by
  induction fuel with
  | zero =>
    intro b m hlen hm
    cases b with
    | nil => simp [messagesF] at hm
    | cons x xs => simp at hlen
  | succ fuel ih =>
    intro b m hlen hm j hj1 hj2
    cases b with
    | nil => simp [messagesF] at hm
    | cons x xs =>
      rw [messagesF] at hm
      cases hf : findSplit (x :: xs) with
      | some i =>
        rw [hf] at hm
        obtain ⟨h1, h2, h3, h4⟩ := findSplit_some hf
        rcases List.mem_cons.mp hm with he | hr
        · subst he
          rw [List.length_take] at hj2
          have hji : j < i := by omega
          by_contra hcon
          have hsw : startsWithHeader (((x :: xs).take i).drop j) = true := by
            cases hgoal : startsWithHeader (((x :: xs).take i).drop j) with
            | false => exact absurd hgoal hcon
            | true => rfl
          rw [List.drop_take] at hsw
          have := startsWithHeader_of_take hsw
          rw [h4 j hj1 hji] at this
          exact Bool.false_eq_true.mp this
        · refine ih _ m ?_ hr j hj1 hj2
          simp only [List.length_cons] at hlen
          simp only [List.length_drop, List.length_cons]
          omega
      | none =>
        rw [hf] at hm
        simp at hm
        subst hm
        have hj : j < (x :: xs).length := by omega
        exact findSplit_none hf j hj1 hj


/-- C10: every message yielded by the framer except possibly the first
begins with one of the three 4-byte header constants, and no yielded
message contains a header constant wholly inside it at offset 1 or more. -/
theorem framer_header_invariant :
    (∀ b m : List Nat, m ∈ (messages b).drop 1 → startsWithHeader m = true) ∧
    (∀ b m : List Nat, m ∈ messages b → ∀ j, 1 ≤ j → j + 4 ≤ m.length →
      startsWithHeader (m.drop j) = false) :=
  ⟨fun b m hm => messagesF_tail_start b.length b m hm,
   fun b m hm => messagesF_no_interior b.length b m (le_refl _) hm⟩

theorem framer_header_invariant_witness :
    startsWithHeader (HEARTBEAT ++ [5]) = true ∧
    startsWithHeader ((HEARTBEAT ++ [5]).drop 1) = false :=
  ⟨framer_header_invariant.1 ([1, 2] ++ HEARTBEAT ++ [5]) (HEARTBEAT ++ [5]) (by decide),
   framer_header_invariant.2 ([1, 2] ++ HEARTBEAT ++ [5]) (HEARTBEAT ++ [5]) (by decide)
     1 (by decide) (by decide)⟩

/-- The scan returns the first matching offset. -/
theorem findSplitAux_eq_some {b : List Nat} {m : Nat} (i fuel : Nat)
    (hfirst : ∀ j, i ≤ j → j < m → startsWithHeader (b.drop j) = false)
    (hm : startsWithHeader (b.drop m) = true)
    (hi : i ≤ m) (hfuel : m < i + fuel) :
    findSplitAux b i fuel = some m := by
  induction fuel generalizing i with
  | zero => omega
  | succ fuel ih =>
    rw [findSplitAux]
    rcases Nat.eq_or_lt_of_le hi with he | hl
    · subst he; simp [hm]
    · rw [hfirst i (le_refl _) hl]
      simp only [Bool.false_eq_true, if_false]
      exact ih (i + 1) (fun j h1 h2 => hfirst j (by omega) h2) hl (by omega)

theorem findSplitAux_eq_none {b : List Nat} (i fuel : Nat)
    (hnone : ∀ j, i ≤ j → j < i + fuel → startsWithHeader (b.drop j) = false) :
    findSplitAux b i fuel = none := by
  induction fuel generalizing i with
  | zero => rfl
  | succ fuel ih =>
    rw [findSplitAux, hnone i (le_refl _) (by omega)]
    simp only [Bool.false_eq_true, if_false]
    exact ih (i + 1) (fun j h1 h2 => hnone j (by omega) (by omega))

/-- Unfolding `messagesF` one step when a split is found. -/
theorem messagesF_of_some {b : List Nat} {i fuel : Nat} (hb : b ≠ [])
    (hf : findSplit b = some i) :
    messagesF (fuel + 1) b = b.take i :: messagesF fuel (b.drop i) := by
  cases b with
  | nil => exact absurd rfl hb
  | cons x xs => rw [messagesF, hf]

/-- `messagesF` yields the whole buffer when no split is found. -/
theorem messagesF_of_none {b : List Nat} {fuel : Nat} (hb : b ≠ [])
    (hfuel : 1 ≤ fuel) (hf : findSplit b = none) : messagesF fuel b = [b] := by
  cases fuel with
  | zero => omega
  | succ fuel =>
    cases b with
    | nil => exact absurd rfl hb
    | cons x xs => rw [messagesF, hf]

/-- `h` is one of the three 4-byte header constants. -/
def isHeaderConst (h : List Nat) : Prop :=
  h = HEARTBEAT ∨ h = REQUEST_HEADER ∨ h = RESPONSE_HEADER

theorem isHeaderConst_length {h : List Nat} (hh : isHeaderConst h) : h.length = 4 := by
  rcases hh with rfl | rfl | rfl <;> rfl

theorem startsWithHeader_append {h t : List Nat} (hh : isHeaderConst h) :
    startsWithHeader (h ++ t) = true := by
  unfold startsWithHeader
  rcases hh with rfl | rfl | rfl <;>
    simp only [isPrefixOf_append, Bool.true_or, Bool.or_true]

/-- C8 counterexample: with `header = payload = HEARTBEAT` for the first
pair and an empty second payload, the input has the claimed shape
`header‖payload‖header‖payload` but the framer yields three messages,
not the claimed two. -/
theorem framer_boundary_cex :
    messages ((HEARTBEAT ++ HEARTBEAT) ++ (HEARTBEAT ++ [])) ≠
      [HEARTBEAT ++ HEARTBEAT, HEARTBEAT ++ []] := by decide

/-- C8 (amended): `header‖p1‖header‖p2` splits into exactly the two
messages `header‖p1` and `header‖p2`, provided no header constant occurs
in the buffer at an offset other than `0` and the length of `header‖p1`. -/
theorem framer_boundary (h1 p1 h2 p2 : List Nat)
    (hh1 : isHeaderConst h1) (hh2 : isHeaderConst h2)
    (hno : ∀ j, j < ((h1 ++ p1) ++ (h2 ++ p2)).length → 1 ≤ j →
      j ≠ h1.length + p1.length →
      startsWithHeader (((h1 ++ p1) ++ (h2 ++ p2)).drop j) = false) :
    messages ((h1 ++ p1) ++ (h2 ++ p2)) = [h1 ++ p1, h2 ++ p2] := by
  set B := (h1 ++ p1) ++ (h2 ++ p2) with hB
  have hl1 : h1.length = 4 := isHeaderConst_length hh1
  have hl2 : h2.length = 4 := isHeaderConst_length hh2
  have hm : (h1 ++ p1).length = h1.length + p1.length := by
    rw [List.length_append]
  have hlenB : B.length = (h1 ++ p1).length + (h2.length + p2.length) := by
    simp only [hB, List.length_append]
  have hdropm : B.drop (h1 ++ p1).length = h2 ++ p2 := List.drop_left _ _
  have htakem : B.take (h1 ++ p1).length = h1 ++ p1 := List.take_left _ _
  have hswm : startsWithHeader (B.drop (h1 ++ p1).length) = true := by
    rw [hdropm]; exact startsWithHeader_append hh2
  have hfirst : ∀ j, 1 ≤ j → j < (h1 ++ p1).length →
      startsWithHeader (B.drop j) = false := by
    intro j h1j h2j
    exact hno j (by omega) h1j (by omega)
  have hfs : findSplit B = some (h1 ++ p1).length := by
    unfold findSplit
    exact findSplitAux_eq_some 1 (B.length - 1)
      (fun j hj1 hj2 => hfirst j hj1 hj2) hswm (by omega) (by omega)
  have hBne : B ≠ [] := by
    intro h
    have hc := congrArg List.length h
    simp only [List.length_nil] at hc
    omega
  have hfs2 : findSplit (h2 ++ p2) = none := by
    unfold findSplit
    refine findSplitAux_eq_none 1 ((h2 ++ p2).length - 1) (fun j hj1 hj2 => ?_)
    have hdd : (h2 ++ p2).drop j = B.drop ((h1 ++ p1).length + j) := by
      rw [← hdropm, List.drop_drop, Nat.add_comm]
    rw [hdd]
    refine hno _ ?_ (by omega) (by omega)
    simp only [List.length_append] at hj2 ⊢
    omega
  have hfuel : B.length = (B.length - 1) + 1 := by omega
  rw [messages, hfuel, messagesF_of_some hBne hfs, htakem, hdropm]
  rw [messagesF_of_none (b := h2 ++ p2) ?_ ?_ hfs2]
  · intro h
    have hc := congrArg List.length h
    simp only [List.length_nil, List.length_append] at hc
    omega
  · simp only [List.length_append] at hlenB ⊢
    omega

theorem framer_boundary_witness :
    messages ((REQUEST_HEADER ++ [1, 2, 3]) ++ (RESPONSE_HEADER ++ [9])) =
      [REQUEST_HEADER ++ [1, 2, 3], RESPONSE_HEADER ++ [9]] :=
  framer_boundary REQUEST_HEADER [1, 2, 3] RESPONSE_HEADER [9]
    (Or.inr (Or.inl rfl)) (Or.inr (Or.inr rfl)) (by decide)

/-! ## Checksum (src/utils.rs) and response validation (`DataBuffer`, src/lib.rs) -/

/-- `checksum`: fold of `u8::wrapping_add` over the bytes, starting from
`init.unwrap_or(0)`. -/
def checksum (init : Option Nat) (data : List Nat) : Nat :=
  data.foldl (fun acc val => (acc + val) % 256) (init.getD 0)

/-- `DataBuffer::check_data_crc`: the buffer is accepted when it is at least
`RESPONSE_HEADER.len() + 1` bytes long and its trailing byte equals the
checksum of the preceding bytes. -/
def check_data_crc (raw : List Nat) : Bool :=
  if raw.length < RESPONSE_HEADER.length + 1 then false
  else raw.getD (raw.length - 1) 0 == checksum none (raw.take (raw.length - 1))

theorem checksum_foldl_eq (data : List Nat) :
    ∀ a, a < 256 → data.foldl (fun acc val => (acc + val) % 256) a = (a + data.sum) % 256 := by
  induction data with
  | nil => intro a ha; simp [Nat.mod_eq_of_lt ha]
  | cons v rest ih =>
    intro a ha
    rw [List.foldl_cons, ih ((a + v) % 256) (Nat.mod_lt _ (by norm_num)), List.sum_cons]
    omega

theorem checksum_none_eq (S : List Nat) : checksum none S = S.sum % 256 := by
  unfold checksum
  rw [show (none : Option Nat).getD 0 = 0 from rfl,
    checksum_foldl_eq S 0 (by norm_num), Nat.zero_add]

theorem checksum_lt (S : List Nat) : checksum none S < 256 := by
  rw [checksum_none_eq]
  exact Nat.mod_lt _ (by norm_num)

theorem flip_ne {y k : Nat} (hy : y < 256) (hk : k < 8) :
    (y ^^^ 2 ^ k) ≠ y ∧ (y ^^^ 2 ^ k) < 256 := by
  constructor
  · intro h
    have h2 : y ^^^ (y ^^^ 2 ^ k) = y ^^^ y := by rw [h]
    rw [← Nat.xor_assoc, Nat.xor_self, Nat.zero_xor] at h2
    exact absurd h2 (Nat.pos_iff_ne_zero.mp (Nat.two_pow_pos k))
  · have h8 : (256 : Nat) = 2 ^ 8 := rfl
    rw [h8] at hy ⊢
    exact Nat.xor_lt_two_pow hy (Nat.pow_lt_pow_right (by norm_num) hk)

theorem sum_set {S : List Nat} {i x : Nat} (hi : i < S.length) :
    (S.set i x).sum + S.getD i 0 = S.sum + x := by
  rw [List.getD_eq_getElem S 0 hi, List.set_eq_take_append_cons_drop, if_pos hi]
  rw [List.sum_append, List.sum_cons]
  have h1 : (S.take (i + 1)).sum + (S.drop (i + 1)).sum = S.sum :=
    List.sum_take_add_sum_drop S (i + 1)
  have h2 : (S.take (i + 1)).sum = (S.take i).sum + S[i] := List.sum_take_succ S i hi
  omega

theorem getD_append_length (S : List Nat) (c : Nat) : (S ++ [c]).getD S.length 0 = c := by
  induction S with
  | nil => rfl
  | cons x xs _ => simp [List.getD]

/-- Validating `S ++ [c]` reduces to comparing `c` with `checksum S` once
`S` is at least as long as a response header. -/
theorem check_data_crc_append {S : List Nat} (c : Nat) (h : 4 ≤ S.length) :
    check_data_crc (S ++ [c]) = (c == checksum none S) := by
  unfold check_data_crc
  have hlen : (S ++ [c]).length = S.length + 1 := by simp
  rw [hlen, if_neg (by simp only [RESPONSE_HEADER, List.length_cons, List.length_nil]; omega)]
  rw [Nat.add_sub_cancel, getD_append_length, List.take_left]

/-- C2 counterexample: the empty byte sequence followed by its checksum does
not pass `check_data_crc` (the buffer is shorter than a response header plus
checksum), contradicting the claim for every byte sequence `S`. -/
theorem checksum_roundtrip_cex :
    check_data_crc ([] ++ [checksum none []]) = false := by decide

/-- C2 (amended): for any byte sequence `S` of at least header length (4),
`S ++ [checksum S]` passes validation; and for any such `S`, flipping any
single bit of any byte of `S`, or of the trailing checksum byte, makes
validation fail. -/
theorem checksum_roundtrip (S : List Nat) (hlen : 4 ≤ S.length)
    (hbytes : ∀ b ∈ S, b < 256) (i k : Nat) (hi : i < S.length) (hk : k < 8) :
    check_data_crc (S ++ [checksum none S]) = true ∧
    check_data_crc (S.set i ((S.getD i 0 ^^^ 2 ^ k)) ++ [checksum none S]) = false ∧
    check_data_crc (S ++ [(checksum none S ^^^ 2 ^ k)]) = false := by
  have hy : S.getD i 0 < 256 := by
    rw [List.getD_eq_getElem S 0 hi]
    exact hbytes _ (List.getElem_mem hi)
  obtain ⟨hne, hxlt⟩ := flip_ne hy hk
  refine ⟨?_, ?_, ?_⟩
  · rw [check_data_crc_append _ hlen]
    exact beq_self_eq_true _
  · have hlen' : 4 ≤ (S.set i ((S.getD i 0 ^^^ 2 ^ k))).length := by
      rw [List.length_set]; exact hlen
    rw [check_data_crc_append _ hlen', beq_eq_false_iff_ne]
    intro hEq
    have hsum := sum_set (x := (S.getD i 0 ^^^ 2 ^ k)) hi
    rw [checksum_none_eq, checksum_none_eq] at hEq
    have h1 : Nat.ModEq 256 (S.set i ((S.getD i 0 ^^^ 2 ^ k))).sum S.sum := hEq.symm
    have h2 := (h1.add_right (S.getD i 0)).symm
    rw [hsum] at h2
    have h4 : (S.getD i 0 ^^^ 2 ^ k) % 256 = S.getD i 0 % 256 :=
      (Nat.ModEq.add_left_cancel' S.sum h2).symm
    rw [Nat.mod_eq_of_lt hxlt, Nat.mod_eq_of_lt hy] at h4
    exact hne h4
  · rw [check_data_crc_append _ hlen, beq_eq_false_iff_ne]
    exact (flip_ne (checksum_lt S) hk).1

theorem checksum_roundtrip_witness :
    check_data_crc ([1, 2, 3, 4] ++ [checksum none [1, 2, 3, 4]]) = true ∧
    check_data_crc (([1, 2, 3, 4] : List Nat).set 0
        ((([1, 2, 3, 4] : List Nat).getD 0 0 ^^^ 2 ^ 0)) ++
      [checksum none [1, 2, 3, 4]]) = false ∧
    check_data_crc ([1, 2, 3, 4] ++ [(checksum none [1, 2, 3, 4] ^^^ 2 ^ 0)]) = false :=
  checksum_roundtrip [1, 2, 3, 4] (by decide) (by decide) 0 0 (by decide) (by decide)

/-! ## Errors (src/result.rs, variants relevant to the protocol layer) -/

inductive Error where
  | Utf8
  | Timeout
  | NotFound
  | BadCrc
  | BadRecordType
  | LostConnection
  | NotEnoughData
  deriving DecidableEq, Repr

/-! ## Text helpers (src/utils.rs) -/

/-- Is `b` a UTF-8 continuation byte? -/
def utf8Cont (b : Nat) : Bool := 0x80 ≤ b && b ≤ 0xbf

/-- UTF-8 validity as checked by `core::str::from_utf8` (RFC 3629: no
overlong forms, no surrogates, nothing above U+10FFFF), with structural
fuel so the kernel can evaluate it. -/
def utf8ValidF : Nat → List Nat → Bool
  | _, [] => true
  | 0, _ :: _ => false
  | fuel + 1, b :: rest =>
    if b ≤ 0x7f then utf8ValidF fuel rest
    else if 0xc2 ≤ b && b ≤ 0xdf then
      match rest with
      | c1 :: rest2 => utf8Cont c1 && utf8ValidF fuel rest2
      | _ => false
    else if b == 0xe0 then
      match rest with
      | c1 :: c2 :: rest2 =>
        (0xa0 ≤ c1 && c1 ≤ 0xbf) && utf8Cont c2 && utf8ValidF fuel rest2
      | _ => false
    else if (0xe1 ≤ b && b ≤ 0xec) || b == 0xee || b == 0xef then
      match rest with
      | c1 :: c2 :: rest2 => utf8Cont c1 && utf8Cont c2 && utf8ValidF fuel rest2
      | _ => false
    else if b == 0xed then
      match rest with
      | c1 :: c2 :: rest2 =>
        (0x80 ≤ c1 && c1 ≤ 0x9f) && utf8Cont c2 && utf8ValidF fuel rest2
      | _ => false
    else if b == 0xf0 then
      match rest with
      | c1 :: c2 :: c3 :: rest2 =>
        (0x90 ≤ c1 && c1 ≤ 0xbf) && utf8Cont c2 && utf8Cont c3 && utf8ValidF fuel rest2
      | _ => false
    else if 0xf1 ≤ b && b ≤ 0xf3 then
      match rest with
      | c1 :: c2 :: c3 :: rest2 =>
        utf8Cont c1 && utf8Cont c2 && utf8Cont c3 && utf8ValidF fuel rest2
      | _ => false
    else if b == 0xf4 then
      match rest with
      | c1 :: c2 :: c3 :: rest2 =>
        (0x80 ≤ c1 && c1 ≤ 0x8f) && utf8Cont c2 && utf8Cont c3 && utf8ValidF fuel rest2
      | _ => false
    else false

def utf8Valid (bs : List Nat) : Bool := utf8ValidF bs.length bs

/-- `trim_matches('\0')`: strip NUL bytes from both ends.  (On valid UTF-8
the NUL character occupies exactly one byte, so byte-level trimming agrees
with the character-level trim of the Rust code.) -/
def trimNul (bs : List Nat) : List Nat :=
  ((bs.dropWhile (· == 0)).reverse.dropWhile (· == 0)).reverse

/-- `ascii_to_string`: UTF-8 decode (strings kept as their byte lists),
then trim NULs; a decode failure is a `Utf8` error. -/
def ascii_to_string (ascii : List Nat) : Except Error (List Nat) :=
  if utf8Valid ascii then .ok (trimNul ascii) else .error .Utf8

/-- `ascii_to_string_safe`: on encoding error, log and degrade to the
empty string. -/
def ascii_to_string_safe (ascii : List Nat) : List Nat :=
  (ascii_to_string ascii).toOption.getD []

/-! ## Numeric helpers (src/utils.rs) -/

/-- `u32::from_le_bytes` over a 4-byte field. -/
def u32le (bs : List Nat) : Nat :=
  bs.getD 0 0 + 0x100 * bs.getD 1 0 + 0x10000 * bs.getD 2 0 + 0x1000000 * bs.getD 3 0

/-- `u32le_to_count`: little-endian u32 as a plain count. -/
def u32le_to_count (bs : List Nat) : Nat := u32le bs

/-- `i16::from_le_bytes` over a 2-byte slot. -/
def i16le (s : Nat × Nat) : Int :=
  let v := s.1 + 0x100 * s.2
  if v < 0x8000 then (v : Int) else (v : Int) - 0x10000

/-- `i16le_to_value`: signed 16-bit little-endian value scaled by `mul`
(exact rationals stand in for the `f32` arithmetic of the source). -/
def i16le_to_value (s : Nat × Nat) (mul : ℚ) : ℚ := (i16le s : ℚ) * mul

/-- `i16les_to_values`: drop the all-zero slots, scale the rest. -/
def i16les_to_values (raw : List (Nat × Nat)) (mul : ℚ) : List ℚ :=
  (raw.filter (fun s => decide (s ≠ (0, 0)))).map (fun s => i16le_to_value s mul)

/-- `i32::from_le_bytes` over a 4-byte field. -/
def i32le (bs : List Nat) : Int :=
  let v := u32le bs
  if v < 0x80000000 then (v : Int) else (v : Int) - 0x100000000

def i32le_to_value (bs : List Nat) (mul : ℚ) : ℚ := (i32le bs : ℚ) * mul

def u32le_to_value (bs : List Nat) (mul : ℚ) : ℚ := (u32le bs : ℚ) * mul

/-! ## Record layouts (src/protocol.rs) -/

/-- `len` bytes of `raw` starting at absolute offset `off`. -/
def fieldBytes (raw : List Nat) (off len : Nat) : List Nat :=
  (raw.drop off).take len

/-- The 2-byte slot at absolute offset `off`. -/
def slotAt (raw : List Nat) (off : Nat) : Nat × Nat :=
  (raw.getD off 0, raw.getD (off + 1) 0)

/-- `n` consecutive 2-byte slots starting at absolute offset `off`. -/
def slotsAt (raw : List Nat) (off n : Nat) : List (Nat × Nat) :=
  (List.range n).map (fun i => slotAt raw (off + 2 * i))

/-- `size_of::<RawDeviceInfo>()` = 6-byte record header + 144 field bytes. -/
def RAW_DEVICE_INFO_SIZE : Nat := 150

/-- `size_of::<RawCellData>()`. -/
def RAW_CELL_DATA_SIZE : Nat := 256

/-- Decoded `DeviceInfo` (src/types.rs); strings as trimmed byte lists. -/
structure DeviceInfo where
  device_model : List Nat
  hardware_version : List Nat
  software_version : List Nat
  up_time : Nat
  poweron_times : Nat
  device_name : List Nat
  device_passcode : List Nat
  manufacturing_date : List Nat
  serial_number : List Nat
  passcode : List Nat
  userdata : List Nat
  setup_passcode : List Nat
  userdata2 : List Nat
  deriving DecidableEq, Repr

/-- Decoded `CellData` (src/types.rs); scaled values as exact rationals. -/
structure CellData where
  cell_voltage : List ℚ
  average_cell_voltage : ℚ
  delta_cell_voltage : ℚ
  balance_current : ℚ
  cell_resistance : List ℚ
  battery_voltage : ℚ
  battery_power : ℚ
  battery_current : ℚ
  battery_temperature : List ℚ
  mosfet_temperature : ℚ
  remain_percent : Nat
  remain_capacity : ℚ
  nominal_capacity : ℚ
  cycle_count : Nat
  cycle_capacity : ℚ
  up_time : Nat
  deriving DecidableEq, Repr

/-- `TryFrom<&[u8]> for DeviceInfo`: length check (`split_first_chunk` into
a `RawDeviceInfo` view), record-type gate (`0x03`), then field extraction
at the fixed offsets of `RawDeviceInfo`. -/
def deviceInfoOfBytes (raw : List Nat) : Except Error DeviceInfo :=
  if raw.length < RAW_DEVICE_INFO_SIZE then .error .NotEnoughData
  else if raw.getD 4 0 ≠ 0x03 then .error .BadRecordType
  else .ok {
    device_model := ascii_to_string_safe (fieldBytes raw 6 16)
    hardware_version := ascii_to_string_safe (fieldBytes raw 22 8)
    software_version := ascii_to_string_safe (fieldBytes raw 30 8)
    up_time := u32le_to_count (fieldBytes raw 38 4)
    poweron_times := u32le_to_count (fieldBytes raw 42 4)
    device_name := ascii_to_string_safe (fieldBytes raw 46 16)
    device_passcode := ascii_to_string_safe (fieldBytes raw 62 16)
    manufacturing_date := ascii_to_string_safe (fieldBytes raw 78 8)
    serial_number := ascii_to_string_safe (fieldBytes raw 86 11)
    passcode := ascii_to_string_safe (fieldBytes raw 97 5)
    userdata := ascii_to_string_safe (fieldBytes raw 102 16)
    setup_passcode := ascii_to_string_safe (fieldBytes raw 118 16)
    userdata2 := ascii_to_string_safe (fieldBytes raw 134 16) }

/-- The `CellData` built by `TryFrom<&RawCellData>` once the record-type
gate has passed: field extraction at the fixed offsets of `RawCellData`,
including the mosfet-temperature fallback from offset 166 to offset 254. -/
def decodedCellData (raw : List Nat) : CellData :=
  { cell_voltage := i16les_to_values (slotsAt raw 6 32) (1 / 1000)
    average_cell_voltage := i16le_to_value (slotAt raw 74) (1 / 1000)
    delta_cell_voltage := i16le_to_value (slotAt raw 76) (1 / 1000)
    balance_current := i16le_to_value (slotAt raw 78) (1 / 1000)
    cell_resistance := i16les_to_values (slotsAt raw 80 32) (1 / 1000)
    battery_voltage := i32le_to_value (fieldBytes raw 150 4) (1 / 1000)
    battery_power := i32le_to_value (fieldBytes raw 154 4) (1 / 1000)
    battery_current := i32le_to_value (fieldBytes raw 158 4) (1 / 1000)
    battery_temperature := i16les_to_values (slotsAt raw 162 2) (1 / 10)
    mosfet_temperature := i16le_to_value
      (if slotAt raw 166 ≠ (0, 0) then slotAt raw 166 else slotAt raw 254) (1 / 10)
    remain_percent := raw.getD 173 0
    remain_capacity := u32le_to_value (fieldBytes raw 174 4) (1 / 1000)
    nominal_capacity := u32le_to_value (fieldBytes raw 178 4) (1 / 1000)
    cycle_count := u32le_to_count (fieldBytes raw 182 4)
    cycle_capacity := u32le_to_value (fieldBytes raw 186 4) (1 / 1000)
    up_time := u32le_to_count (fieldBytes raw 194 4) }

/-- `TryFrom<&[u8]> for CellData`: length check (`split_first_chunk` into a
`RawCellData` view), record-type gate (`0x02`), then field extraction. -/
def cellDataOfBytes (raw : List Nat) : Except Error CellData :=
  if raw.length < RAW_CELL_DATA_SIZE then .error .NotEnoughData
  else if raw.getD 4 0 ≠ 0x02 then .error .BadRecordType
  else .ok (decodedCellData raw)

deriving instance DecidableEq for Except

/-! ## Totality of decoding (C3) and the record-type gate (C4) -/

/-- C3 counterexample: a 10-byte buffer whose record-type byte matches
(0x03) and whose trailing byte is a correct checksum of the preceding
bytes still fails to decode (`NotEnoughData`), so decoding is not total
except for checksum/record-type mismatches. -/
theorem decode_total_cex :
    deviceInfoOfBytes [0x55, 0xaa, 0xeb, 0x90, 0x03, 0, 0, 0, 0, 0x7d] =
      .error .NotEnoughData ∧
    ([0x55, 0xaa, 0xeb, 0x90, 0x03, 0, 0, 0, 0, 0x7d] : List Nat).getD 4 0 = 0x03 ∧
    check_data_crc [0x55, 0xaa, 0xeb, 0x90, 0x03, 0, 0, 0, 0, 0x7d] = true := by decide

/-- C3 (amended): decoding a byte slice into `DeviceInfo` or `CellData`
succeeds exactly when the slice is at least as long as the fixed raw layout
and the record-type byte (offset 4) matches; every failure is
`NotEnoughData` or `BadRecordType` (the checksum is validated separately,
before decoding). -/
theorem decode_total :
    (∀ raw : List Nat, (deviceInfoOfBytes raw).isOk = true ↔
      (RAW_DEVICE_INFO_SIZE ≤ raw.length ∧ raw.getD 4 0 = 0x03)) ∧
    (∀ raw : List Nat, (cellDataOfBytes raw).isOk = true ↔
      (RAW_CELL_DATA_SIZE ≤ raw.length ∧ raw.getD 4 0 = 0x02)) ∧
    (∀ (raw : List Nat) (e : Error), deviceInfoOfBytes raw = .error e →
      e = .NotEnoughData ∨ e = .BadRecordType) ∧
    (∀ (raw : List Nat) (e : Error), cellDataOfBytes raw = .error e →
      e = .NotEnoughData ∨ e = .BadRecordType) := by
  refine ⟨?_, ?_, ?_, ?_⟩
  · intro raw
    unfold deviceInfoOfBytes
    by_cases h1 : raw.length < RAW_DEVICE_INFO_SIZE
    · rw [if_pos h1]
      simp only [Except.isOk, Except.toBool, Bool.false_eq_true, false_iff]
      intro h
      unfold RAW_DEVICE_INFO_SIZE at h h1
      omega
    · rw [if_neg h1]
      by_cases h2 : raw.getD 4 0 ≠ 0x03
      · rw [if_pos h2]
        simp only [Except.isOk, Except.toBool, Bool.false_eq_true, false_iff]
        intro h
        exact h2 h.2
      · rw [if_neg h2]
        simp only [Except.isOk, Except.toBool, true_iff]
        exact ⟨by omega, not_not.mp h2⟩
  · intro raw
    unfold cellDataOfBytes
    by_cases h1 : raw.length < RAW_CELL_DATA_SIZE
    · rw [if_pos h1]
      simp only [Except.isOk, Except.toBool, Bool.false_eq_true, false_iff]
      intro h
      unfold RAW_CELL_DATA_SIZE at h h1
      omega
    · rw [if_neg h1]
      by_cases h2 : raw.getD 4 0 ≠ 0x02
      · rw [if_pos h2]
        simp only [Except.isOk, Except.toBool, Bool.false_eq_true, false_iff]
        intro h
        exact h2 h.2
      · rw [if_neg h2]
        simp only [Except.isOk, Except.toBool, true_iff]
        exact ⟨by omega, not_not.mp h2⟩
  · intro raw e h
    unfold deviceInfoOfBytes at h
    by_cases h1 : raw.length < RAW_DEVICE_INFO_SIZE
    · rw [if_pos h1] at h
      exact Or.inl (Except.error.inj h).symm
    · rw [if_neg h1] at h
      by_cases h2 : raw.getD 4 0 ≠ 0x03
      · rw [if_pos h2] at h
        exact Or.inr (Except.error.inj h).symm
      · rw [if_neg h2] at h
        exact absurd h (by simp)
  · intro raw e h
    unfold cellDataOfBytes at h
    by_cases h1 : raw.length < RAW_CELL_DATA_SIZE
    · rw [if_pos h1] at h
      exact Or.inl (Except.error.inj h).symm
    · rw [if_neg h1] at h
      by_cases h2 : raw.getD 4 0 ≠ 0x02
      · rw [if_pos h2] at h
        exact Or.inr (Except.error.inj h).symm
      · rw [if_neg h2] at h
        exact absurd h (by simp)

set_option maxRecDepth 4000 in
theorem decode_total_witness :
    (deviceInfoOfBytes (List.replicate 150 3)).isOk = true ∧
    (Error.NotEnoughData = Error.NotEnoughData ∨ Error.NotEnoughData = Error.BadRecordType) :=
  ⟨(decode_total.1 (List.replicate 150 3)).mpr ⟨by decide, by decide⟩,
   decode_total.2.2.1 [] Error.NotEnoughData (by decide)⟩

/-- C4 counterexample: a 5-byte buffer whose record-type byte (offset 4)
differs from 0x03 fails decoding, but with `NotEnoughData`, not the
record-type error the claim requires. -/
theorem record_type_gate_cex :
    ([0x55, 0xaa, 0xeb, 0x90, 0x00] : List Nat).getD 4 0 ≠ 0x03 ∧
    deviceInfoOfBytes [0x55, 0xaa, 0xeb, 0x90, 0x00] ≠ .error .BadRecordType := by
  decide

/-- C4 (amended): when the record-type byte differs from the expected
constant (0x03 / 0x02) decoding never returns a structure; the error is
`BadRecordType` whenever the buffer is at least as long as the fixed raw
layout (shorter buffers fail earlier with `NotEnoughData`). -/
theorem record_type_gate :
    (∀ raw : List Nat, raw.getD 4 0 ≠ 0x03 →
      (deviceInfoOfBytes raw).isOk = false ∧
      (RAW_DEVICE_INFO_SIZE ≤ raw.length →
        deviceInfoOfBytes raw = .error .BadRecordType)) ∧
    (∀ raw : List Nat, raw.getD 4 0 ≠ 0x02 →
      (cellDataOfBytes raw).isOk = false ∧
      (RAW_CELL_DATA_SIZE ≤ raw.length →
        cellDataOfBytes raw = .error .BadRecordType)) := by
  constructor
  · intro raw hr
    unfold deviceInfoOfBytes
    by_cases h1 : raw.length < RAW_DEVICE_INFO_SIZE
    · rw [if_pos h1]
      exact ⟨rfl, fun h => by omega⟩
    · rw [if_neg h1, if_pos hr]
      exact ⟨rfl, fun _ => rfl⟩
  · intro raw hr
    unfold cellDataOfBytes
    by_cases h1 : raw.length < RAW_CELL_DATA_SIZE
    · rw [if_pos h1]
      exact ⟨rfl, fun h => by omega⟩
    · rw [if_neg h1, if_pos hr]
      exact ⟨rfl, fun _ => rfl⟩

set_option maxRecDepth 4000 in
theorem record_type_gate_witness :
    (deviceInfoOfBytes (List.replicate 150 0)).isOk = false ∧
    deviceInfoOfBytes (List.replicate 150 0) = .error .BadRecordType := by
  have h := record_type_gate.1 (List.replicate 150 0) (by decide)
  exact ⟨h.1, h.2 (by decide)⟩

/-! ## Sentinel filtering (C5) -/

/-- Index-level characterization of the sentinel filter: the value list
keeps, in input order, exactly the scaled values of the slots different
from `(0, 0)`. -/
theorem i16les_to_values_by_index (slots : List (Nat × Nat)) (mul : ℚ) :
    i16les_to_values slots mul =
      ((List.range slots.length).filter
        (fun i => decide (slots.getD i (0, 0) ≠ (0, 0)))).map
        (fun i => i16le_to_value (slots.getD i (0, 0)) mul) := by
  induction slots with
  | nil => rfl
  | cons s t ih =>
    unfold i16les_to_values at ih ⊢
    rw [List.length_cons, List.range_succ_eq_map, List.filter_cons, List.filter_cons]
    simp only [List.getD_cons_zero]
    rw [List.filter_map]
    have hq : ((fun i => decide (((s :: t).getD i (0, 0)) ≠ (0, 0))) ∘ Nat.succ) =
        (fun i => decide ((t.getD i (0, 0)) ≠ (0, 0))) := by
      funext i
      simp [Function.comp, List.getD_cons_succ]
    have hg : ((fun i => i16le_to_value ((s :: t).getD i (0, 0)) mul) ∘ Nat.succ) =
        (fun i => i16le_to_value (t.getD i (0, 0)) mul) := by
      funext i
      simp [Function.comp, List.getD_cons_succ]
    rw [hq]
    by_cases hs : s = (0, 0)
    · rw [if_neg (by simp [hs]), if_neg (by simp [hs]), List.map_map, hg, ih]
    · rw [if_pos (by simpa using hs), if_pos (by simpa using hs), List.map_cons, List.map_cons,
        List.map_map, hg, ih, List.getD_cons_zero]

/-- Inversion: a successful cell-data decode yields exactly the structure
read off the fixed offsets. -/
theorem cellDataOfBytes_ok_inv {raw : List Nat} {cd : CellData}
    (h : cellDataOfBytes raw = .ok cd) : cd = decodedCellData raw := by
  unfold cellDataOfBytes at h
  by_cases h1 : raw.length < RAW_CELL_DATA_SIZE
  · rw [if_pos h1] at h
    exact absurd h (by simp)
  · rw [if_neg h1] at h
    by_cases h2 : raw.getD 4 0 ≠ 0x02
    · rw [if_pos h2] at h
      exact absurd h (by simp)
    · rw [if_neg h2] at h
      exact (Except.ok.inj h).symm

/-- C5: the slot arrays of a decoded cell-data payload keep, in input
order, exactly the scaled values of the slots whose two bytes are not both
zero; the result length is the number of populated slots (so it can be
shorter than the slot count). -/
theorem sentinel_filtering :
    (∀ (slots : List (Nat × Nat)) (mul : ℚ),
      i16les_to_values slots mul =
        ((List.range slots.length).filter
          (fun i => decide (slots.getD i (0, 0) ≠ (0, 0)))).map
          (fun i => i16le_to_value (slots.getD i (0, 0)) mul) ∧
      (i16les_to_values slots mul).length =
        slots.countP (fun s => decide (s ≠ (0, 0)))) ∧
    (∀ (raw : List Nat) (cd : CellData), cellDataOfBytes raw = .ok cd →
      cd.cell_voltage = i16les_to_values (slotsAt raw 6 32) (1 / 1000) ∧
      cd.cell_resistance = i16les_to_values (slotsAt raw 80 32) (1 / 1000) ∧
      cd.battery_temperature = i16les_to_values (slotsAt raw 162 2) (1 / 10)) := by
  constructor
  · intro slots mul
    refine ⟨i16les_to_values_by_index slots mul, ?_⟩
    unfold i16les_to_values
    rw [List.length_map, ← List.countP_eq_length_filter]
  · intro raw cd h
    rw [cellDataOfBytes_ok_inv h]
    exact ⟨rfl, rfl, rfl⟩

/-- A 256-byte all-zero buffer with record type 0x02. -/
def zeroCellBuf : List Nat := (List.replicate 256 0).set 4 2

set_option maxRecDepth 16000 in
theorem sentinel_filtering_witness :
    ((i16les_to_values [(1, 0), (0, 0)] 1).length =
      ([(1, 0), (0, 0)] : List (Nat × Nat)).countP (fun s => decide (s ≠ (0, 0)))) ∧
    (decodedCellData zeroCellBuf).cell_voltage =
      i16les_to_values (slotsAt zeroCellBuf 6 32) (1 / 1000) :=
  ⟨(sentinel_filtering.1 [(1, 0), (0, 0)] 1).2,
   (sentinel_filtering.2 zeroCellBuf (decodedCellData zeroCellBuf) (by rfl)).1⟩

/-- C6: in a successful cell-data decode the mosfet temperature comes from
the secondary field (offset 254) exactly when the primary field (offset
166) is all-zero, and from the primary field otherwise, scaled by 1/10. -/
theorem mosfet_fallback (raw : List Nat) (cd : CellData)
    (h : cellDataOfBytes raw = .ok cd) :
    (slotAt raw 166 = (0, 0) →
      cd.mosfet_temperature = i16le_to_value (slotAt raw 254) (1 / 10)) ∧
    (slotAt raw 166 ≠ (0, 0) →
      cd.mosfet_temperature = i16le_to_value (slotAt raw 166) (1 / 10)) := by
  rw [cellDataOfBytes_ok_inv h]
  constructor
  · intro hz
    show i16le_to_value
        (if slotAt raw 166 ≠ (0, 0) then slotAt raw 166 else slotAt raw 254) (1 / 10) =
      i16le_to_value (slotAt raw 254) (1 / 10)
    rw [if_neg (fun hc => hc hz)]
  · intro hnz
    show i16le_to_value
        (if slotAt raw 166 ≠ (0, 0) then slotAt raw 166 else slotAt raw 254) (1 / 10) =
      i16le_to_value (slotAt raw 166) (1 / 10)
    rw [if_pos hnz]

/-- A 256-byte buffer with record type 0x02, all-zero primary
mosfet-temperature field, and a non-zero secondary field. -/
def fallbackCellBuf : List Nat := ((List.replicate 256 0).set 4 2).set 254 10

set_option maxRecDepth 16000 in
theorem mosfet_fallback_witness :
    (decodedCellData fallbackCellBuf).mosfet_temperature =
      i16le_to_value (slotAt fallbackCellBuf 254) (1 / 10) :=
  (mosfet_fallback fallbackCellBuf (decodedCellData fallbackCellBuf) (by rfl)).1
    (by decide)

/-! ## Scenario A: the documented device-info fixture (C7) -/

/-- The 256-byte device-info fixture (the response payload of the
`response_parse::device_info` test, truncated to 256 bytes; decoding reads
only the first 150). -/
def deviceInfoFixture : List Nat := [
    0x55, 0xaa, 0xeb, 0x90, 0x03, 0x59, 0x4a, 0x4b, 0x5f, 0x42, 0x44, 0x34, 0x41,
    0x38, 0x53, 0x34, 0x50, 0x00, 0x00, 0x00, 0x00, 0x00, 0x31, 0x35, 0x41, 0x00,
    0x00, 0x00, 0x00, 0x00, 0x31, 0x35, 0x2e, 0x32, 0x36, 0x00, 0x00, 0x00, 0x7c,
    0xe3, 0x18, 0x00, 0x01, 0x00, 0x00, 0x00, 0x61, 0x62, 0x63, 0x64, 0x65, 0x66,
    0x67, 0x68, 0x00, 0x00, 0x00, 0x00, 0x00, 0x00, 0x00, 0x00, 0x31, 0x32, 0x33,
    0x34, 0x00, 0x00, 0x00, 0x00, 0x00, 0x00, 0x00, 0x00, 0x00, 0x00, 0x00, 0x00,
    0x32, 0x34, 0x30, 0x38, 0x31, 0x38, 0x00, 0x00, 0x34, 0x30, 0x35, 0x33, 0x31,
    0x33, 0x31, 0x30, 0x36, 0x32, 0x39, 0x00, 0x30, 0x30, 0x30, 0x00, 0x4a, 0x4b,
    0x2d, 0x42, 0x4d, 0x53, 0x00, 0x00, 0x00, 0x00, 0x00, 0x00, 0x00, 0x00, 0x00,
    0x00, 0x31, 0x32, 0x33, 0x34, 0x35, 0x36, 0x37, 0x38, 0x39, 0x00, 0x00, 0x00,
    0x00, 0x00, 0x00, 0x00, 0x4a, 0x4b, 0x2d, 0x42, 0x4d, 0x53, 0x00, 0x00, 0x00,
    0x00, 0x00, 0x00, 0x00, 0x00, 0x00, 0x00, 0xfe, 0xff, 0xff, 0xff, 0x1f, 0xe9,
    0x05, 0x02, 0x00, 0x00, 0x00, 0x00, 0x90, 0x1f, 0x00, 0x00, 0x00, 0x00, 0xc0,
    0xd8, 0xe7, 0xf7, 0x3c, 0x00, 0x00, 0x01, 0x00, 0x00, 0x00, 0x00, 0x00, 0x00,
    0x00, 0x00, 0x00, 0x00, 0xdf, 0x27, 0x00, 0x00, 0x00, 0x00, 0x00, 0x00, 0x00,
    0x00, 0x00, 0x00, 0x00, 0x00, 0x00, 0x00, 0xdf, 0x0f, 0x00, 0x00, 0x00, 0x00,
    0x00, 0x00, 0x00, 0x00, 0x00, 0x00, 0x00, 0x00, 0x00, 0x00, 0x03, 0xdf, 0x27,
    0x00, 0x00, 0x00, 0x00, 0x00, 0x00, 0x00, 0x00, 0x00, 0x00, 0x00, 0x00, 0x00,
    0x09, 0x08, 0x00, 0x01, 0x64, 0x00, 0x00, 0x00, 0x5f, 0x00, 0x00, 0x00, 0x3c,
    0x00, 0x00, 0x00, 0x32, 0x00, 0x00, 0x00, 0x00, 0x00]

/-- The byte values of an ASCII string literal. -/
def asciiBytes (s : String) : List Nat := s.data.map Char.toNat

set_option maxRecDepth 16000 in
/-- C7: the documented 256-byte device-info fixture (response header, record
type 0x03) decodes successfully with `device_model = "JK_BD4A8S4P"`,
`hardware_version = "15A"`, `software_version = "15.26"`,
`up_time = 1631100` and `poweron_times = 1`. -/
theorem scenario_a :
    (deviceInfoOfBytes deviceInfoFixture).map (fun d =>
      (d.device_model, d.hardware_version, d.software_version, d.up_time, d.poweron_times)) =
      .ok (asciiBytes "JK_BD4A8S4P", asciiBytes "15A", asciiBytes "15.26", 1631100, 1) := by
  decide

/-! ## Device discovery (`Client::find` / `Client::scan_all`, src/lib.rs) -/

/-- Device identifier (src/types.rs); MAC addresses as byte lists. -/
inductive DeviceId where
  | Mac (mac : List Nat)
  | Name (name : List Nat)
  deriving DecidableEq, Repr

/-- One `DeviceDiscovered` event observed during the scan: the peripheral's
MAC address and whether its advertised services include the vendor (JK-BMS)
service UUID (the outcome of `check_service`). -/
structure Advert where
  mac : List Nat
  hasService : Bool
  deriving DecidableEq, Repr

/-- `Client::scan_all`: every discovered peripheral advertising the vendor
service is pushed into the result as `DeviceId::Mac`. -/
def scan_all_found (events : List Advert) : List DeviceId :=
  (events.filter (fun a => a.hasService)).map (fun a => .Mac a.mac)

/-- How the bounded scan ends: the `scan_timeout` timer fires first
(`Elapsed`), the discovery-event stream ends (`scan_all` returns
`Err(NotFound)`), or a transport error surfaces. -/
inductive ScanEnd where
  | timedOut
  | streamEnded
  | failed (e : Error)
  deriving DecidableEq, Repr

/-- `Client::find`: the events observed before the scan ends determine the
device list; timer expiry is swallowed (`.or_else(|_| Ok(Ok(())))`), so on
timeout the list collected so far is returned as a success, while a stream
end or transport failure propagates as an error. -/
def find (events : List Advert) (outcome : ScanEnd) : Except Error (List DeviceId) :=
  match outcome with
  | .timedOut => .ok (scan_all_found events)
  | .streamEnded => .error .NotFound
  | .failed e => .error e

/-- C9: when no advertiser of the vendor service UUID is discovered before
`scan_timeout` expires, `Client::find` returns a successful empty device
list rather than an error. -/
theorem find_timeout_empty (events : List Advert)
    (h : ∀ a ∈ events, a.hasService = false) :
    find events .timedOut = .ok [] := by
  unfold find scan_all_found
  have hnil : events.filter (fun a => a.hasService) = [] := by
    rw [List.filter_eq_nil_iff]
    intro a ha
    simp [h a ha]
  rw [hnil, List.map_nil]

theorem find_timeout_empty_witness :
    find [⟨[0x11, 0x22, 0x33, 0x44, 0x55, 0x66], false⟩] .timedOut = .ok [] :=
  find_timeout_empty [⟨[0x11, 0x22, 0x33, 0x44, 0x55, 0x66], false⟩] (by decide)

end Ubmsc
